import Mathlib

/-!
Verification development for the soundboard web application
(`src/js/app.js`).  The JavaScript is shallowly embedded: JS strings are
`List Char`, byte values are `Nat` (with the invariant `< 256` stated
where it matters), the browser `localStorage` is an association list from
keys to stored strings, fallible operations return `Option`.

The browser builtins the code relies on (`btoa`/`atob` semantics via
`FileReader.readAsDataURL`, `JSON.parse`/`JSON.stringify`) are embedded
as executable Lean functions following their standard semantics
(forgiving base64, JSON without number fractions/exponents, which the
program never produces).
-/

/-! ## Base64 alphabet -/

/-- The standard base64 alphabet, in index order. -/
def b64Alphabet : List Char :=
  "ABCDEFGHIJKLMNOPQRSTUVWXYZabcdefghijklmnopqrstuvwxyz0123456789+/".toList

/-- Character for a 6-bit group (used by the `btoa` model). -/
def b64Char (n : Nat) : Char := b64Alphabet.getD n '?'

/-- Index of a character in a list (JS `String.prototype.indexOf` on a char). -/
def b64Index : List Char → Char → Option Nat
  | [], _ => none
  | a :: rest, c => if c = a then some 0 else (b64Index rest c).map (· + 1)

/-- 6-bit value of a base64 character, `none` for characters outside the
alphabet (this is what makes `atob` throw on them). -/
def b64Val (c : Char) : Option Nat := b64Index b64Alphabet c

/-! ## btoa: bytes to base64 text

`FileReader.readAsDataURL` produces `"data:<mime>;base64," ++ btoa(bytes)`.
We model the base64 payload production as the standard `btoa`: groups of
three bytes become four alphabet characters, a trailing group of one or
two bytes is padded with `=`. -/

/-- Model of the browser `btoa` on a byte sequence. -/
def btoa : List Nat → List Char
  | [] => []
  | [b0] =>
      [b64Char (b0 / 4), b64Char (b0 % 4 * 16), '=', '=']
  | [b0, b1] =>
      [b64Char (b0 / 4), b64Char (b0 % 4 * 16 + b1 / 16), b64Char (b1 % 16 * 4), '=']
  | b0 :: b1 :: b2 :: rest =>
      b64Char (b0 / 4) :: b64Char (b0 % 4 * 16 + b1 / 16) ::
      b64Char (b1 % 16 * 4 + b2 / 64) :: b64Char (b2 % 64) :: btoa rest

/-! ## atob: base64 text to bytes (forgiving base64) -/

/-- ASCII whitespace, which forgiving-base64 removes before decoding. -/
def isB64Ws (c : Char) : Bool :=
  c = ' ' || c = '\t' || c = '\n' || c = '\x0d' || c = '\x0c'

/-- Decode groups of four base64 characters into three bytes; the final
group may hold two or three data characters, optionally completed by `=`
padding.  Any character outside the alphabet (including a misplaced `=`)
makes the whole decode fail, as `atob` throws `InvalidCharacterError`. -/
def atobGroups : List Char → Option (List Nat)
  | [] => some []
  | [c1, c2] =>
      (b64Val c1).bind fun n1 => (b64Val c2).map fun n2 =>
        [n1 * 4 + n2 / 16]
  | [c1, c2, c3] =>
      (b64Val c1).bind fun n1 => (b64Val c2).bind fun n2 => (b64Val c3).map fun n3 =>
        [n1 * 4 + n2 / 16, n2 % 16 * 16 + n3 / 4]
  | [c1, c2, c3, c4] =>
      if c4 = '=' then
        if c3 = '=' then
          (b64Val c1).bind fun n1 => (b64Val c2).map fun n2 =>
            [n1 * 4 + n2 / 16]
        else
          (b64Val c1).bind fun n1 => (b64Val c2).bind fun n2 => (b64Val c3).map fun n3 =>
            [n1 * 4 + n2 / 16, n2 % 16 * 16 + n3 / 4]
      else
        (b64Val c1).bind fun n1 => (b64Val c2).bind fun n2 =>
        (b64Val c3).bind fun n3 => (b64Val c4).map fun n4 =>
          [n1 * 4 + n2 / 16, n2 % 16 * 16 + n3 / 4, n3 % 4 * 64 + n4]
  | c1 :: c2 :: c3 :: c4 :: rest =>
      (b64Val c1).bind fun n1 => (b64Val c2).bind fun n2 =>
      (b64Val c3).bind fun n3 => (b64Val c4).bind fun n4 =>
      (atobGroups rest).map fun bs =>
        (n1 * 4 + n2 / 16) :: (n2 % 16 * 16 + n3 / 4) :: (n3 % 4 * 64 + n4) :: bs
  | _ => none

/-- Model of the browser `atob`: strip ASCII whitespace, then decode the
character groups; a remainder of one character is invalid. -/
def atob (s : List Char) : Option (List Nat) :=
  atobGroups (s.filter fun c => !isB64Ws c)

/-! ## The encode pipeline of `reader.onloadend` (app.js lines 93–101)

`reader.result` is the data URL; the code strips everything up to and
including the first occurrence of `"base64,"` with
`base64data.slice(base64data.indexOf(start) + start.length)`. -/

/-- The data-URL prefix `readAsDataURL` puts in front of the payload for a
`Blob` with no explicit MIME type. -/
def dataUrlHead : List Char := "data:application/octet-stream;base64,".toList

/-- JS `String.prototype.indexOf` for a substring: index of the first
occurrence, `none` when absent (JS returns `-1`, translated below). -/
def indexOfSub (needle : List Char) : List Char → Option Nat
  | [] => if needle = [] then some 0 else none
  | c :: rest =>
      if needle.isPrefixOf (c :: rest) then some 0
      else (indexOfSub needle rest).map (· + 1)

/-- The `reader.result` string for a recorded payload. -/
def readerResult (bytes : List Nat) : List Char := dataUrlHead ++ btoa bytes

/-- The text stored for a payload: the data URL with everything up to and
including `"base64,"` sliced off — this is the spec's `encode`. -/
def encode (bytes : List Nat) : List Char :=
  let base64data := readerResult bytes
  let start := "base64,".toList
  let idx : Int := match indexOfSub start base64data with
    | some n => (n : Int)
    | none => -1
  base64data.drop (idx + start.length).toNat

/-! ## base64toBlob (app.js lines 148–168)

`atob` yields a binary string; the function walks it in slices of 1024
characters, turns each slice into a `Uint8Array` of the character codes,
and concatenates the arrays into a `Blob` — modelled as `List.join`. -/

/-- Model of `base64toBlob`; `none` models `atob` throwing on invalid
input. -/
def base64toBlob (base64Data : List Char) : Option (List Nat) :=
  (atob base64Data).map fun byteCharacters =>
    let sliceSize := 1024
    let bytesLength := byteCharacters.length
    let slicesCount := (bytesLength + sliceSize - 1) / sliceSize
    (((List.range slicesCount).map fun sliceIndex =>
        let b := sliceIndex * sliceSize
        let e := min (b + sliceSize) bytesLength
        (List.range (e - b)).map fun i => byteCharacters.getD (b + i) 0)).flatten

/-! ## JSON values

`localStorage` stores strings; the program round-trips its sound list
through `JSON.stringify` / `JSON.parse`.  Both are embedded as executable
functions on `List Char`.  JSON numbers are restricted to integers (the
program never stores numbers; they only matter for which store contents
count as parseable). -/

/-- JavaScript values produced by `JSON.parse`. -/
inductive JSValue where
  | jnull
  | jbool (b : Bool)
  | jnum (n : Int)
  | jstr (s : List Char)
  | jarr (elems : List JSValue)
  | jobj (fields : List (List Char × JSValue))
deriving Repr

/-- Lower-case hex digit. -/
def hexDigit (n : Nat) : Char := "0123456789abcdef".toList.getD n '0'

/-- JSON string escaping of one character, as `JSON.stringify` does it:
quote and backslash get a backslash escape, the named control characters
get their short escapes, other control characters become `\u00XX`, and
everything else is emitted verbatim. -/
def escChar (c : Char) : List Char :=
  if c = '"' then ['\\', '"']
  else if c = '\\' then ['\\', '\\']
  else if c = '\x08' then ['\\', 'b']
  else if c = '\x09' then ['\\', 't']
  else if c = '\x0a' then ['\\', 'n']
  else if c = '\x0c' then ['\\', 'f']
  else if c = '\x0d' then ['\\', 'r']
  else if c.toNat < 0x20 then
    ['\\', 'u', '0', '0', hexDigit (c.toNat / 16), hexDigit (c.toNat % 16)]
  else [c]

/-- A JSON string literal: quoted, characters escaped. -/
def strLit (s : List Char) : List Char := '"' :: s.flatMap escChar ++ ['"']

mutual

/-- Model of `JSON.stringify` (no spacing argument, hence no whitespace). -/
def stringify : JSValue → List Char
  | .jnull => "null".toList
  | .jbool true => "true".toList
  | .jbool false => "false".toList
  | .jnum n => (toString n).toList
  | .jstr s => strLit s
  | .jarr xs => '[' :: stringifyElems xs ++ [']']
  | .jobj fs => '{' :: stringifyFields fs ++ ['}']

/-- Comma-separated serialization of array elements. -/
def stringifyElems : List JSValue → List Char
  | [] => []
  | [x] => stringify x
  | x :: xs => stringify x ++ ',' :: stringifyElems xs

/-- Comma-separated serialization of object fields, in insertion order. -/
def stringifyFields : List (List Char × JSValue) → List Char
  | [] => []
  | [(k, v)] => strLit k ++ ':' :: stringify v
  | (k, v) :: fs => strLit k ++ ':' :: stringify v ++ ',' :: stringifyFields fs

end

/-- JSON whitespace. -/
def isJsonWs (c : Char) : Bool := c = ' ' || c = '\t' || c = '\n' || c = '\x0d'

/-- Drop leading JSON whitespace. -/
def skipWs : List Char → List Char
  | [] => []
  | c :: rest => if isJsonWs c then skipWs rest else c :: rest

/-- Value of one hex digit, for `\uXXXX` escapes. -/
def hexVal (c : Char) : Option Nat :=
  if '0' ≤ c ∧ c ≤ '9' then some (c.toNat - 48)
  else if 'a' ≤ c ∧ c ≤ 'f' then some (c.toNat - 87)
  else if 'A' ≤ c ∧ c ≤ 'F' then some (c.toNat - 55)
  else none

/-- Parse the body of a JSON string literal (the opening quote already
consumed) up to and including the closing quote, processing escapes;
returns the string and the remaining input.  Raw control characters are
rejected, as `JSON.parse` rejects them. -/
def parseStrBody : List Char → Option (List Char × List Char)
  | [] => none
  | c :: rest =>
    if c = '"' then some ([], rest)
    else if c = '\\' then
      match rest with
      | [] => none
      | e :: rest2 =>
        if e = '"' then (parseStrBody rest2).map fun p => ('"' :: p.1, p.2)
        else if e = '\\' then (parseStrBody rest2).map fun p => ('\\' :: p.1, p.2)
        else if e = '/' then (parseStrBody rest2).map fun p => ('/' :: p.1, p.2)
        else if e = 'b' then (parseStrBody rest2).map fun p => ('\x08' :: p.1, p.2)
        else if e = 't' then (parseStrBody rest2).map fun p => ('\x09' :: p.1, p.2)
        else if e = 'n' then (parseStrBody rest2).map fun p => ('\x0a' :: p.1, p.2)
        else if e = 'f' then (parseStrBody rest2).map fun p => ('\x0c' :: p.1, p.2)
        else if e = 'r' then (parseStrBody rest2).map fun p => ('\x0d' :: p.1, p.2)
        else if e = 'u' then
          match rest2 with
          | h1 :: h2 :: h3 :: h4 :: rest3 =>
            (hexVal h1).bind fun v1 => (hexVal h2).bind fun v2 =>
            (hexVal h3).bind fun v3 => (hexVal h4).bind fun v4 =>
            (parseStrBody rest3).map fun p =>
              (Char.ofNat (v1 * 4096 + v2 * 256 + v3 * 16 + v4) :: p.1, p.2)
          | _ => none
        else none
    else if c.toNat < 0x20 then none
    else (parseStrBody rest).map fun p => (c :: p.1, p.2)

/-- Digits of a decimal number, most significant first. -/
def parseDigits : List Char → Nat → (Nat × List Char)
  | [], acc => (acc, [])
  | c :: rest, acc =>
    if '0' ≤ c ∧ c ≤ '9' then parseDigits rest (acc * 10 + (c.toNat - 48))
    else (acc, c :: rest)

/-- Parse an integer JSON number (optional minus sign, at least one
digit). -/
def parseNum : List Char → Option (Int × List Char)
  | [] => none
  | c :: rest =>
    if c = '-' then
      match rest with
      | d :: _ =>
        if '0' ≤ d ∧ d ≤ '9' then
          let p := parseDigits rest 0
          some (-(p.1 : Int), p.2)
        else none
      | [] => none
    else if '0' ≤ c ∧ c ≤ '9' then
      let p := parseDigits (c :: rest) 0
      some ((p.1 : Int), p.2)
    else none

mutual

/-- Parse one JSON value from the input, returning it with the remaining
input; `fuel` bounds the recursion depth and is instantiated generously
at the top level. -/
def parseVal : Nat → List Char → Option (JSValue × List Char)
  | 0, _ => none
  | fuel + 1, cs =>
    match skipWs cs with
    | [] => none
    | c :: rest =>
      if c = '"' then (parseStrBody rest).map fun p => (.jstr p.1, p.2)
      else if c = '[' then
        match skipWs rest with
        | ']' :: r => some (.jarr [], r)
        | cs' => (parseElems fuel cs').map fun p => (.jarr p.1, p.2)
      else if c = '{' then
        match skipWs rest with
        | '}' :: r => some (.jobj [], r)
        | cs' => (parseFields fuel cs').map fun p => (.jobj p.1, p.2)
      else if c = 'n' then
        match rest with
        | 'u' :: 'l' :: 'l' :: r => some (.jnull, r)
        | _ => none
      else if c = 't' then
        match rest with
        | 'r' :: 'u' :: 'e' :: r => some (.jbool true, r)
        | _ => none
      else if c = 'f' then
        match rest with
        | 'a' :: 'l' :: 's' :: 'e' :: r => some (.jbool false, r)
        | _ => none
      else (parseNum (c :: rest)).map fun p => (.jnum p.1, p.2)

/-- Parse the elements of a non-empty JSON array, including the closing
bracket. -/
def parseElems : Nat → List Char → Option (List JSValue × List Char)
  | 0, _ => none
  | fuel + 1, cs =>
    (parseVal fuel cs).bind fun p =>
      match skipWs p.2 with
      | ',' :: r2 => (parseElems fuel r2).map fun q => (p.1 :: q.1, q.2)
      | ']' :: r2 => some ([p.1], r2)
      | _ => none

/-- Parse the fields of a non-empty JSON object, including the closing
brace. -/
def parseFields : Nat → List Char → Option (List (List Char × JSValue) × List Char)
  | 0, _ => none
  | fuel + 1, cs =>
    match skipWs cs with
    | '"' :: r =>
      (parseStrBody r).bind fun pk =>
        match skipWs pk.2 with
        | ':' :: r2 =>
          (parseVal fuel r2).bind fun pv =>
            match skipWs pv.2 with
            | ',' :: r3 => (parseFields fuel r3).map fun q => ((pk.1, pv.1) :: q.1, q.2)
            | '}' :: r3 => some ([(pk.1, pv.1)], r3)
            | _ => none
        | _ => none
    | _ => none

end

/-- Model of `JSON.parse`: parse one value, then require only whitespace
to remain; `none` models the `SyntaxError` exception. -/
def jsonParse (s : List Char) : Option JSValue :=
  match parseVal (s.length + 1) s with
  | some (v, rest) => if skipWs rest = [] then some v else none
  | none => none

/-! ## The sound catalog (app.js lines 8–24 and 104–113) -/

/-- One persisted sound: the entry literal `{name: ..., data: ...}`. -/
structure SoundEntry where
  name : List Char
  data : List Char
deriving DecidableEq, Repr

/-- The JS object a `SoundEntry` is, as a JSON value (field insertion
order `name` then `data`, as in the object literal). -/
def entryJson (e : SoundEntry) : JSValue :=
  .jobj [("name".toList, .jstr e.name), ("data".toList, .jstr e.data)]

/-- The `sounds` array as a JSON value. -/
def soundsToJson (l : List SoundEntry) : JSValue := .jarr (l.map entryJson)

/-- Truthiness of a JS value (`null`, `false`, `0` and `""` are falsy;
objects and arrays are always truthy). -/
def isFalsy : JSValue → Bool
  | .jnull => true
  | .jbool b => !b
  | .jnum n => n == 0
  | .jstr s => s.isEmpty
  | .jarr _ => false
  | .jobj _ => false

/-- `localStorage` contents: an association list from keys to stored
strings. -/
def getItem (storage : List (List Char × List Char)) (k : List Char) : Option (List Char) :=
  match storage with
  | [] => none
  | (k', v) :: rest => if k = k' then some v else getItem rest k

/-- `localStorage.setItem`. -/
def setItem (storage : List (List Char × List Char)) (k v : List Char) :
    List (List Char × List Char) :=
  match storage with
  | [] => [(k, v)]
  | (k', v') :: rest => if k = k' then (k, v) :: rest else (k', v') :: setItem rest k v

/-- The load in `initUI` (lines 15–24):
`sounds = JSON.parse(localStorage.getItem("sounds")) || []`, guarded by
`hasLocalStorage`; without storage `sounds` keeps its initial value `[]`.
`getItem` of an absent key returns `null`, which `JSON.parse` coerces to
the string `"null"`.  The result is the value of `sounds` after the
statement; `none` models the statement throwing (an uncaught
`JSON.parse` exception). -/
def load (hasLS : Bool) (stored : Option (List Char)) : Option JSValue :=
  if hasLS then
    match jsonParse (stored.getD ("null".toList)) with
    | some v => some (if isFalsy v then .jarr [] else v)
    | none => none
  else
    some (.jarr [])

/-- State touched by an append: the in-memory `sounds` array and the
storage. -/
structure CatalogState where
  sounds : List SoundEntry
  storage : List (List Char × List Char)
deriving DecidableEq, Repr

/-- The body of `reader.onloadend` after the entry is built (lines
104–113): `sounds.push(entry)` followed by
`if (hasLocalStorage) localStorage.setItem("sounds", JSON.stringify(sounds))`.
`writeOk = false` models `setItem` throwing (e.g. quota exceeded); the
push has already happened by then, so only the storage write is lost.
The returned `Bool` is `false` when the write threw. -/
def appendSound (hasLS writeOk : Bool) (e : SoundEntry) (st : CatalogState) :
    CatalogState × Bool :=
  let sounds := st.sounds ++ [e]
  if hasLS then
    if writeOk then
      ({ sounds := sounds,
         storage := setItem st.storage ("sounds".toList)
           (stringify (soundsToJson sounds)) }, true)
    else
      ({ sounds := sounds, storage := st.storage }, false)
  else
    ({ sounds := sounds, storage := st.storage }, true)

/-- The name given to a new sound (line 84):
`prompt(...) || ""` — `null` (cancel) and the empty string are falsy,
everything else is kept. -/
def promptName (response : Option (List Char)) : List Char :=
  match response with
  | none => []
  | some s => if s.isEmpty then [] else s

/-- The entry literal pushed in `reader.onloadend` (lines 104–107). -/
def mkSoundEntry (response : Option (List Char)) (data : List Char) : SoundEntry :=
  { name := promptName response, data := data }

/-! ## The recording session (app.js lines 29–59)

The click handler and the `getUserMedia` resolution, as a step function
on the observable UI state.  `mediaRecorder` starts out `undefined` and
is only assigned inside the `.then` of `getUserMedia`; the code never
clears it.  A failed or still-pending `getUserMedia` is modelled by the
`streamAcquired` event simply not (yet) having occurred. -/

/-- Observable state of the recording UI, together with the catalog state
the handlers close over (`sounds` and the storage; the click handler never
touches them — persistence happens in the separate `onloadend` callback,
modelled by `appendSound`). -/
structure UIState where
  recording : Bool
  mediaRecorder : Option Unit
  pendingStream : Bool
  btnText : List Char
  btnBackground : List Char
  sounds : List SoundEntry
  storage : List (List Char × List Char)
deriving DecidableEq, Repr

/-- Events driving the recording session. -/
inductive Ev where
  | click (mediaDevices : Bool)
  | streamAcquired
deriving DecidableEq, Repr

/-- The `recordBtn.onclick` handler (lines 29–59). -/
def clickRecord (mediaDevices : Bool) (s : UIState) : UIState :=
  if !mediaDevices then s
  else if s.recording then
    match s.mediaRecorder with
    | some _ =>
      { s with recording := false,
               btnText := "Record New Sound".toList,
               btnBackground := [] }
    | none => s
  else
    { s with recording := true,
             btnText := "Stop Recording".toList,
             pendingStream := true }

/-- One step of the session: a click runs the handler; stream acquisition
runs the `.then` callback (lines 67–73), which creates the recorder and
turns the button red. -/
def step (s : UIState) : Ev → UIState
  | .click md => clickRecord md s
  | .streamAcquired =>
    if s.pendingStream then
      { s with mediaRecorder := some (), pendingStream := false,
               btnBackground := "red".toList }
    else s

/-- The initial UI state: `recording = false`, `mediaRecorder`
undefined, no pending stream request. -/
def initState : UIState :=
  { recording := false, mediaRecorder := none, pendingStream := false,
    btnText := "Record New Sound".toList, btnBackground := [],
    sounds := [], storage := [] }

/-- A UI state the running program can actually be in. -/
def ReachableUI (s : UIState) : Prop :=
  ∃ evs : List Ev, List.foldl step initState evs = s

/-! ## Sanity checks -/

example : atob ("QUJD".toList) = some [65, 66, 67] := by decide
example : atob ("QQ==".toList) = some [65] := by decide
example : atob ("QUI=".toList) = some [65, 66] := by decide
example : btoa [65, 66, 67] = "QUJD".toList := by decide
example : btoa [81] = "UQ==".toList := by decide
example : encode [65, 66, 67] = "QUJD".toList := by decide
example : base64toBlob ("QUJD".toList) = some [65, 66, 67] := by decide
example : base64toBlob (encode []) = some [] := by decide
example : base64toBlob (encode [0, 255, 7]) = some [0, 255, 7] := by decide

/-! ## Base64 round trip -/

theorem b64Val_b64Char : ∀ n < 64, b64Val (b64Char n) = some n := by decide

theorem b64Char_ne_pad : ∀ n < 64, b64Char n ≠ '=' := by decide

theorem isB64Ws_b64Char (n : Nat) : isB64Ws (b64Char n) = false := by
  rcases lt_or_le n 64 with h | h
  · exact (by decide : ∀ m < 64, isB64Ws (b64Char m) = false) n h
  · have h' : b64Char n = '?' := by
      have hl : b64Alphabet.length = 64 := by decide
      simp only [b64Char]
      exact List.getD_eq_default _ _ (by omega)
    rw [h']; decide

theorem btoa_filter (bs : List Nat) :
    (btoa bs).filter (fun c => !isB64Ws c) = btoa bs := by
  have hpad : isB64Ws '=' = false := by decide
  induction bs using btoa.induct with
  | case1 => rfl
  | case2 b0 => simp [btoa, List.filter_cons, isB64Ws_b64Char, hpad]
  | case3 b0 b1 => simp [btoa, List.filter_cons, isB64Ws_b64Char, hpad]
  | case4 b0 b1 b2 rest ih => simp [btoa, List.filter_cons, isB64Ws_b64Char, hpad, ih]

theorem btoa_cons_ne_nil (x : Nat) (l : List Nat) : btoa (x :: l) ≠ [] := by
  match l with
  | [] => simp [btoa]
  | [y] => simp [btoa]
  | y :: z :: t => simp [btoa]

theorem atobGroups_btoa : ∀ (bs : List Nat), (∀ b ∈ bs, b < 256) →
    atobGroups (btoa bs) = some bs := by
  intro bs
  induction bs using btoa.induct with
  | case1 => intro _; rfl
  | case2 b0 =>
    intro h
    have hb0 : b0 < 256 := h b0 (by simp)
    have h1 := b64Val_b64Char (b0 / 4) (by omega)
    have h2 := b64Val_b64Char (b0 % 4 * 16) (by omega)
    simp [btoa, atobGroups, h1, h2]
    omega
  | case3 b0 b1 =>
    intro h
    have hb0 : b0 < 256 := h b0 (by simp)
    have hb1 : b1 < 256 := h b1 (by simp)
    have h1 := b64Val_b64Char (b0 / 4) (by omega)
    have h2 := b64Val_b64Char (b0 % 4 * 16 + b1 / 16) (by omega)
    have h3 := b64Val_b64Char (b1 % 16 * 4) (by omega)
    have hne := b64Char_ne_pad (b1 % 16 * 4) (by omega)
    simp [btoa, atobGroups, h1, h2, h3, hne]
    constructor
    · omega
    · omega
  | case4 b0 b1 b2 rest ih =>
    intro h
    have hb0 : b0 < 256 := h b0 (by simp)
    have hb1 : b1 < 256 := h b1 (by simp)
    have hb2 : b2 < 256 := h b2 (by simp)
    have h1 := b64Val_b64Char (b0 / 4) (by omega)
    have h2 := b64Val_b64Char (b0 % 4 * 16 + b1 / 16) (by omega)
    have h3 := b64Val_b64Char (b1 % 16 * 4 + b2 / 64) (by omega)
    have h4 := b64Val_b64Char (b2 % 64) (by omega)
    have hrest : ∀ b ∈ rest, b < 256 := fun b hb => h b (by simp [hb])
    match rest with
    | [] =>
      have hne := b64Char_ne_pad (b2 % 64) (by omega)
      simp [btoa, atobGroups, h1, h2, h3, h4, hne]
      refine ⟨by omega, by omega, by omega⟩
    | r :: rs =>
      obtain ⟨d, ds, hd⟩ := List.exists_cons_of_ne_nil (btoa_cons_ne_nil r rs)
      have ih' := ih hrest
      rw [show btoa (b0 :: b1 :: b2 :: r :: rs) =
        b64Char (b0 / 4) :: b64Char (b0 % 4 * 16 + b1 / 16) ::
        b64Char (b1 % 16 * 4 + b2 / 64) :: b64Char (b2 % 64) :: btoa (r :: rs) from rfl]
      rw [hd] at ih' ⊢
      simp [atobGroups, h1, h2, h3, h4, ih']
      refine ⟨by omega, by omega, by omega⟩

theorem atob_btoa (bs : List Nat) (h : ∀ b ∈ bs, b < 256) :
    atob (btoa bs) = some bs := by
  unfold atob
  rw [btoa_filter]
  exact atobGroups_btoa bs h

theorem isPrefixOf_append_left (needle a rest : List Char)
    (h : needle.length ≤ a.length) :
    needle.isPrefixOf (a ++ rest) = needle.isPrefixOf a := by
  induction needle generalizing a with
  | nil => simp [List.isPrefixOf]
  | cons n ns ih =>
    cases a with
    | nil => simp at h
    | cons x xs =>
      simp only [List.cons_append, List.isPrefixOf, List.append_eq]
      rw [ih xs (by simp at h; omega)]

theorem indexOfSub_nil_needle (l : List Char) : indexOfSub [] l = some 0 := by
  cases l <;> simp [indexOfSub, List.isPrefixOf]

theorem indexOfSub_append (needle a rest : List Char) (i : Nat)
    (h : indexOfSub needle a = some i) (hw : i + needle.length ≤ a.length) :
    indexOfSub needle (a ++ rest) = some i := by
  induction a generalizing i with
  | nil =>
    simp only [indexOfSub] at h
    split at h
    · rename_i hne
      subst hne
      simp only [Option.some.injEq] at h
      subst h
      simpa using indexOfSub_nil_needle rest
    · exact absurd h (by simp)
  | cons x xs ih =>
    simp only [indexOfSub] at h
    split at h
    · rename_i hpre
      simp only [Option.some.injEq] at h
      subst h
      have hlen : needle.length ≤ (x :: xs).length := by simpa using hw
      simp only [List.cons_append, indexOfSub, List.append_eq]
      rw [show x :: (xs ++ rest) = (x :: xs) ++ rest from rfl,
        isPrefixOf_append_left _ _ _ hlen, hpre]
      simp
    · rename_i hpre
      obtain ⟨j, hj, rfl⟩ := Option.map_eq_some'.mp h
      have hjw : j + needle.length ≤ xs.length := by simp at hw; omega
      have hlen : needle.length ≤ (x :: xs).length := by simp; omega
      simp only [List.cons_append, indexOfSub, List.append_eq]
      rw [show x :: (xs ++ rest) = (x :: xs) ++ rest from rfl,
        isPrefixOf_append_left _ _ _ hlen]
      simp only [hpre, if_false]
      rw [ih j hj hjw]
      rfl

theorem indexOfSub_dataUrlHead :
    indexOfSub ("base64,".toList) dataUrlHead = some 30 := by decide

theorem encode_eq_btoa (bs : List Nat) : encode bs = btoa bs := by
  have h := indexOfSub_append ("base64,".toList) dataUrlHead (btoa bs) 30
    indexOfSub_dataUrlHead (by decide)
  simp only [encode, readerResult, h]
  norm_num
  rw [show Int.toNat 37 = dataUrlHead.length from by decide]
  exact List.drop_left _ _

theorem getD_drop (l : List Nat) (j i : Nat) :
    (l.drop j).getD i 0 = l.getD (j + i) 0 := by
  simp [List.getD_eq_getElem?_getD, List.getElem?_drop]

theorem range_map_getD (l : List Nat) :
    (List.range l.length).map (fun i => l.getD i 0) = l := by
  induction l with
  | nil => rfl
  | cons x xs ih =>
    have h0 : (fun i => (x :: xs).getD i 0) ∘ Nat.succ = fun i => xs.getD i 0 := by
      funext i
      simp [List.getD_cons_succ]
    rw [List.length_cons, List.range_succ_eq_map, List.map_cons, List.map_map, h0, ih]
    simp [List.getD_cons_zero]

theorem range_map_getD_take (l : List Nat) (m : Nat) :
    (List.range (min m l.length)).map (fun i => l.getD i 0) = l.take m := by
  have h1 : (l.take m).length = min m l.length := by simp
  conv_rhs => rw [← range_map_getD (l.take m)]
  rw [h1]
  apply List.map_congr_left
  intro i hi
  rw [List.mem_range] at hi
  simp only [List.getD_eq_getElem?_getD, List.getElem?_take]
  rw [if_pos (by omega)]

theorem chunks_flatten_aux : ∀ (n : Nat) (l : List Nat), l.length ≤ n →
    (((List.range ((l.length + 1024 - 1) / 1024)).map fun si =>
        (List.range (min (si * 1024 + 1024) l.length - si * 1024)).map fun i =>
          l.getD (si * 1024 + i) 0)).flatten = l := by
  intro n
  induction n with
  | zero =>
    intro l hl
    have h0 : l = [] := List.length_eq_zero.mp (Nat.le_zero.mp hl)
    subst h0
    rfl
  | succ n ih =>
    intro l hl
    rcases Nat.eq_zero_or_pos l.length with h0 | hpos
    · have h0' : l = [] := List.length_eq_zero.mp h0
      subst h0'
      rfl
    · have hcount : (l.length + 1024 - 1) / 1024 =
          ((l.drop 1024).length + 1024 - 1) / 1024 + 1 := by
        rw [List.length_drop]
        omega
      have hfirst : (List.range (min (0 * 1024 + 1024) l.length - 0 * 1024)).map
          (fun i => l.getD (0 * 1024 + i) 0) = l.take 1024 := by
        rw [← range_map_getD_take l 1024]
        have e1 : min (0 * 1024 + 1024) l.length - 0 * 1024 = min 1024 l.length := by omega
        rw [e1]
        apply List.map_congr_left
        intro i _
        norm_num
      have htail : (List.range (((l.drop 1024).length + 1024 - 1) / 1024)).map
          ((fun si => (List.range (min (si * 1024 + 1024) l.length - si * 1024)).map fun i =>
            l.getD (si * 1024 + i) 0) ∘ Nat.succ)
          = (List.range (((l.drop 1024).length + 1024 - 1) / 1024)).map
            (fun si => (List.range (min (si * 1024 + 1024) (l.drop 1024).length -
                si * 1024)).map fun i => (l.drop 1024).getD (si * 1024 + i) 0) := by
        apply List.map_congr_left
        intro si _
        simp only [Function.comp_apply]
        have hs : Nat.succ si * 1024 = si * 1024 + 1024 := by omega
        have e2 : min (Nat.succ si * 1024 + 1024) l.length - Nat.succ si * 1024
            = min (si * 1024 + 1024) (l.drop 1024).length - si * 1024 := by
          rw [List.length_drop]
          omega
        rw [e2]
        apply List.map_congr_left
        intro i _
        rw [getD_drop]
        rw [show Nat.succ si * 1024 + i = 1024 + (si * 1024 + i) from by omega]
      rw [hcount, List.range_succ_eq_map, List.map_cons, List.flatten_cons, List.map_map,
        htail, ih (l.drop 1024) (by rw [List.length_drop]; omega)]
      rw [hfirst]
      exact List.take_append_drop 1024 l

theorem chunks_flatten (l : List Nat) :
    (((List.range ((l.length + 1024 - 1) / 1024)).map fun si =>
        (List.range (min (si * 1024 + 1024) l.length - si * 1024)).map fun i =>
          l.getD (si * 1024 + i) 0)).flatten = l :=
  chunks_flatten_aux l.length l le_rfl

theorem hexVal_hexDigit : ∀ m < 16, hexVal (hexDigit m) = some m := by decide

theorem skipWs_cons (c : Char) (l : List Char) (h : isJsonWs c = false) :
    skipWs (c :: l) = c :: l := by
  simp [skipWs, h]

theorem parseStrBody_quote (rest : List Char) : parseStrBody ('"' :: rest) = some ([], rest) := by
  rw [parseStrBody.eq_def]
  simp

theorem parseStrBody_esc2 (e : Char) (r : List Char)
    (he : e = '"' ∨ e = '\\' ∨ e = '/' ∨ e = 'b' ∨ e = 't' ∨ e = 'n' ∨ e = 'f' ∨ e = 'r') :
    parseStrBody ('\\' :: e :: r) =
      (parseStrBody r).map fun p =>
        ((if e = 'b' then '\x08' else if e = 't' then '\x09' else if e = 'n' then '\x0a'
          else if e = 'f' then '\x0c' else if e = 'r' then '\x0d' else e) :: p.1, p.2) := by
  rw [parseStrBody.eq_def]
  rcases he with h | h | h | h | h | h | h | h <;> subst h <;> simp

theorem parseStrBody_escU (h1 h2 h3 h4 : Char) (r : List Char) :
    parseStrBody ('\\' :: 'u' :: h1 :: h2 :: h3 :: h4 :: r) =
      (hexVal h1).bind fun v1 => (hexVal h2).bind fun v2 =>
      (hexVal h3).bind fun v3 => (hexVal h4).bind fun v4 =>
      (parseStrBody r).map fun p =>
        (Char.ofNat (v1 * 4096 + v2 * 256 + v3 * 16 + v4) :: p.1, p.2) := by
  rw [parseStrBody.eq_def]
  simp

theorem parseStrBody_plain (c : Char) (rest : List Char)
    (h1 : ¬ c = '"') (h2 : ¬ c = '\\') (h3 : ¬ c.toNat < 0x20) :
    parseStrBody (c :: rest) = (parseStrBody rest).map fun p => (c :: p.1, p.2) := by
  rw [parseStrBody.eq_def]
  simp [h1, h2, h3]

theorem parseStrBody_escBody : ∀ (s : List Char) (rest : List Char),
    parseStrBody (s.flatMap escChar ++ '"' :: rest) = some (s, rest) := by
  intro s
  induction s with
  | nil =>
    intro rest
    simp [parseStrBody_quote]
  | cons c cs ih =>
    intro rest
    rw [List.flatMap_cons, List.append_assoc]
    by_cases h1 : c = '"'
    · subst h1
      rw [show escChar '"' = ['\\', '"'] from by decide]
      simp [parseStrBody_esc2 '"' _ (by norm_num), ih rest]
    by_cases h2 : c = '\\'
    · subst h2
      rw [show escChar '\\' = ['\\', '\\'] from by decide]
      simp [parseStrBody_esc2 '\\' _ (by norm_num), ih rest]
    by_cases h3 : c = '\x08'
    · subst h3
      rw [show escChar '\x08' = ['\\', 'b'] from by decide]
      simp [parseStrBody_esc2 'b' _ (by norm_num), ih rest]
    by_cases h4 : c = '\x09'
    · subst h4
      rw [show escChar '\x09' = ['\\', 't'] from by decide]
      simp [parseStrBody_esc2 't' _ (by norm_num), ih rest]
    by_cases h5 : c = '\x0a'
    · subst h5
      rw [show escChar '\x0a' = ['\\', 'n'] from by decide]
      simp [parseStrBody_esc2 'n' _ (by norm_num), ih rest]
    by_cases h6 : c = '\x0c'
    · subst h6
      rw [show escChar '\x0c' = ['\\', 'f'] from by decide]
      simp [parseStrBody_esc2 'f' _ (by norm_num), ih rest]
    by_cases h7 : c = '\x0d'
    · subst h7
      rw [show escChar '\x0d' = ['\\', 'r'] from by decide]
      simp [parseStrBody_esc2 'r' _ (by norm_num), ih rest]
    by_cases h8 : c.toNat < 0x20
    · have e1 : escChar c =
          ['\\', 'u', '0', '0', hexDigit (c.toNat / 16), hexDigit (c.toNat % 16)] := by
        simp [escChar, h1, h2, h3, h4, h5, h6, h7, h8]
      rw [e1]
      have hv0 : hexVal '0' = some 0 := by decide
      have hv3 : hexVal (hexDigit (c.toNat / 16)) = some (c.toNat / 16) :=
        hexVal_hexDigit _ (by omega)
      have hv4 : hexVal (hexDigit (c.toNat % 16)) = some (c.toNat % 16) :=
        hexVal_hexDigit _ (by omega)
      rw [show ('\\' :: 'u' :: '0' :: '0' :: hexDigit (c.toNat / 16) ::
          hexDigit (c.toNat % 16) :: []) ++ (cs.flatMap escChar ++ '"' :: rest) =
        '\\' :: 'u' :: '0' :: '0' :: hexDigit (c.toNat / 16) ::
          hexDigit (c.toNat % 16) :: (cs.flatMap escChar ++ '"' :: rest) from rfl]
      rw [parseStrBody_escU]
      simp [hv0, hv3, hv4, ih rest]
      rw [show c.toNat / 16 * 16 + c.toNat % 16 = c.toNat from by omega]
      exact Char.ofNat_toNat c
    · have e1 : escChar c = [c] := by
        simp [escChar, h1, h2, h3, h4, h5, h6, h7, h8]
      rw [e1]
      rw [show [c] ++ (cs.flatMap escChar ++ '"' :: rest) =
        c :: (cs.flatMap escChar ++ '"' :: rest) from rfl]
      rw [parseStrBody_plain c _ h1 h2 h8]
      simp [ih rest]

theorem parseVal_str (f : Nat) (r : List Char) :
    parseVal (f + 1) ('"' :: r) = (parseStrBody r).map fun p => (.jstr p.1, p.2) := by
  rw [parseVal.eq_def]
  simp [skipWs, isJsonWs]

theorem parseVal_arr_empty (f : Nat) (r rest2 : List Char) (hr : skipWs r = ']' :: rest2) :
    parseVal (f + 1) ('[' :: r) = some (.jarr [], rest2) := by
  rw [parseVal.eq_def]
  simp [skipWs, isJsonWs, hr]

theorem parseVal_lbrack_obj (f : Nat) (r rest2 : List Char)
    (hr : skipWs r = '{' :: rest2) :
    parseVal (f + 1) ('[' :: r) =
      (parseElems f ('{' :: rest2)).map fun p => (.jarr p.1, p.2) := by
  rw [parseVal.eq_def]
  simp [skipWs, isJsonWs, hr]

theorem parseVal_lbrace_quote (f : Nat) (r rest2 : List Char)
    (hr : skipWs r = '"' :: rest2) :
    parseVal (f + 1) ('{' :: r) =
      (parseFields f ('"' :: rest2)).map fun p => (.jobj p.1, p.2) := by
  rw [parseVal.eq_def]
  simp [skipWs, isJsonWs, hr]

theorem parseElems_succ (f : Nat) (cs : List Char) :
    parseElems (f + 1) cs = (parseVal f cs).bind fun p =>
      match skipWs p.2 with
      | ',' :: r2 => (parseElems f r2).map fun q => (p.1 :: q.1, q.2)
      | ']' :: r2 => some ([p.1], r2)
      | _ => none := by
  rw [parseElems.eq_def]

theorem parseFields_quote (f : Nat) (r : List Char) :
    parseFields (f + 1) ('"' :: r) = (parseStrBody r).bind fun pk =>
      match skipWs pk.2 with
      | ':' :: r2 =>
        (parseVal f r2).bind fun pv =>
          match skipWs pv.2 with
          | ',' :: r3 => (parseFields f r3).map fun q => ((pk.1, pv.1) :: q.1, q.2)
          | '}' :: r3 => some ([(pk.1, pv.1)], r3)
          | _ => none
      | _ => none := by
  rw [parseFields.eq_def]
  simp [skipWs, isJsonWs]

theorem stringify_jstr (s : List Char) : stringify (.jstr s) = strLit s := rfl

theorem stringify_jobj (fs : List (List Char × JSValue)) :
    stringify (.jobj fs) = '{' :: stringifyFields fs ++ ['}'] := rfl

theorem stringify_jarr (xs : List JSValue) :
    stringify (.jarr xs) = '[' :: stringifyElems xs ++ [']'] := rfl

theorem stringifyFields_pair (k1 k2 : List Char) (v1 v2 : JSValue) :
    stringifyFields [(k1, v1), (k2, v2)] =
      strLit k1 ++ ':' :: stringify v1 ++ ',' :: (strLit k2 ++ ':' :: stringify v2) := rfl

theorem stringify_entry_shape (e : SoundEntry) (rest : List Char) :
    stringify (entryJson e) ++ rest =
      '{' :: '"' :: ("name".toList.flatMap escChar ++ '"' :: ':' :: '"' ::
        (e.name.flatMap escChar ++ '"' :: ',' :: '"' ::
          ("data".toList.flatMap escChar ++ '"' :: ':' :: '"' ::
            (e.data.flatMap escChar ++ '"' :: '}' :: rest)))) := by
  simp [entryJson, stringify_jobj, stringifyFields_pair, stringify_jstr, strLit,
    List.append_assoc]

theorem parseVal_entry (e : SoundEntry) (f : Nat) (rest : List Char) :
    parseVal (f + 5) (stringify (entryJson e) ++ rest) = some (entryJson e, rest) := by
  rw [stringify_entry_shape, show f + 5 = (f + 4) + 1 from rfl,
    parseVal_lbrace_quote (f + 4) _ _ (skipWs_cons _ _ (by decide)),
    show f + 4 = (f + 3) + 1 from rfl, parseFields_quote, parseStrBody_escBody]
  simp only [Option.some_bind]
  rw [skipWs_cons _ _ (by decide)]
  simp only []
  rw [show f + 3 = (f + 2) + 1 from rfl, parseVal_str, parseStrBody_escBody]
  simp only [Option.map_some', Option.some_bind]
  rw [skipWs_cons _ _ (by decide)]
  simp only []
  rw [show f + 2 = (f + 1) + 1 from rfl, parseFields_quote, parseStrBody_escBody]
  simp only [Option.some_bind]
  rw [skipWs_cons _ _ (by decide)]
  simp only []
  rw [parseVal_str, parseStrBody_escBody]
  simp only [Option.map_some', Option.some_bind]
  rw [skipWs_cons _ _ (by decide)]
  simp [entryJson]

theorem stringifyElems_single (x : JSValue) : stringifyElems [x] = stringify x := rfl

theorem stringifyElems_cons2 (x y : JSValue) (t : List JSValue) :
    stringifyElems (x :: y :: t) = stringify x ++ ',' :: stringifyElems (y :: t) := rfl

theorem parseVal_entry_le (e : SoundEntry) (fuel : Nat) (rest : List Char)
    (h : 5 ≤ fuel) :
    parseVal fuel (stringify (entryJson e) ++ rest) = some (entryJson e, rest) := by
  obtain ⟨g, rfl⟩ := Nat.exists_eq_add_of_le h
  rw [show 5 + g = g + 5 from by omega]
  exact parseVal_entry e g rest

theorem parseElems_entries : ∀ (es : List SoundEntry) (e : SoundEntry) (fuel : Nat)
    (rest : List Char), 6 + es.length ≤ fuel →
    parseElems fuel (stringifyElems ((e :: es).map entryJson) ++ ']' :: rest) =
      some ((e :: es).map entryJson, rest) := by
  intro es
  induction es with
  | nil =>
    intro e fuel rest h
    simp only [List.length_nil] at h
    obtain ⟨g, rfl⟩ := Nat.exists_eq_add_of_le h
    rw [List.map_cons, List.map_nil, stringifyElems_single,
      show 6 + 0 + g = (g + 5) + 1 from by omega, parseElems_succ, parseVal_entry]
    simp only [Option.some_bind]
    rw [skipWs_cons _ _ (by decide)]
    simp
  | cons e2 t ih =>
    intro e fuel rest h
    simp only [List.length_cons] at h
    obtain ⟨g, rfl⟩ := Nat.exists_eq_add_of_le h
    simp only [List.map_cons]
    rw [stringifyElems_cons2, List.append_assoc,
      show 6 + (t.length + 1) + g = (6 + t.length + g) + 1 from by omega, parseElems_succ,
      parseVal_entry_le e _ _ (by omega)]
    simp only [Option.some_bind, List.cons_append]
    rw [skipWs_cons _ _ (by decide)]
    simp only []
    have ih2 := ih e2 (6 + t.length + g) rest (by omega)
    simp only [List.map_cons] at ih2
    rw [ih2]
    simp

theorem parseVal_sounds_nil (f : Nat) (rest : List Char) :
    parseVal (f + 1) (stringify (soundsToJson []) ++ rest) = some (soundsToJson [], rest) := by
  rw [show stringify (soundsToJson []) ++ rest = '[' :: ']' :: rest from rfl]
  rw [parseVal_arr_empty f _ rest (skipWs_cons _ _ (by decide))]
  rfl

theorem stringifyElems_entries_head (e : SoundEntry) (es : List SoundEntry) :
    ∃ X, stringifyElems ((e :: es).map entryJson) = '{' :: X := by
  cases es with
  | nil => exact ⟨_, rfl⟩
  | cons y t => exact ⟨_, rfl⟩

theorem parseVal_sounds (l : List SoundEntry) (fuel : Nat) (rest : List Char)
    (h : 7 + l.length ≤ fuel) :
    parseVal fuel (stringify (soundsToJson l) ++ rest) = some (soundsToJson l, rest) := by
  cases l with
  | nil =>
    obtain ⟨g, rfl⟩ := Nat.exists_eq_add_of_le h
    rw [show 7 + List.length ([] : List SoundEntry) + g = (6 + g) + 1 from by
      simp only [List.length_nil]; omega, parseVal_sounds_nil]
  | cons e es =>
    obtain ⟨g, rfl⟩ := Nat.exists_eq_add_of_le h
    obtain ⟨X, hX⟩ := stringifyElems_entries_head e es
    rw [soundsToJson, stringify_jarr]
    rw [show ('[' :: stringifyElems ((e :: es).map entryJson) ++ [']']) ++ rest =
      '[' :: (stringifyElems ((e :: es).map entryJson) ++ ']' :: rest) from by simp]
    rw [show 7 + (e :: es).length + g = (6 + (es.length + 1) + g) + 1 from by
      simp only [List.length_cons]; omega]
    rw [parseVal_lbrack_obj _ _ (X ++ ']' :: rest) (by
      rw [hX, List.cons_append]
      exact skipWs_cons _ _ (by decide))]
    rw [← List.cons_append, ← hX]
    rw [parseElems_entries es e _ rest (by omega)]
    simp [soundsToJson]

theorem stringify_entry_length (e : SoundEntry) :
    5 ≤ (stringify (entryJson e)).length := by
  simp [entryJson, stringify_jobj, stringifyFields_pair, stringify_jstr, strLit,
    List.length_append]
  omega

theorem stringifyElems_entries_length : ∀ (es : List SoundEntry) (e : SoundEntry),
    es.length + 5 ≤ (stringifyElems ((e :: es).map entryJson)).length := by
  intro es
  induction es with
  | nil =>
    intro e
    simp only [List.map_cons, List.map_nil, stringifyElems_single]
    simpa using stringify_entry_length e
  | cons y t ih =>
    intro e
    simp only [List.map_cons] at ih ⊢
    rw [stringifyElems_cons2]
    have h1 := stringify_entry_length e
    have h2 := ih y
    simp only [List.length_append, List.length_cons]
    omega

theorem jsonParse_stringify_sounds (l : List SoundEntry) :
    jsonParse (stringify (soundsToJson l)) = some (soundsToJson l) := by
  have hmain : parseVal ((stringify (soundsToJson l)).length + 1)
      (stringify (soundsToJson l)) = some (soundsToJson l, []) := by
    have h0 : parseVal ((stringify (soundsToJson l)).length + 1)
        (stringify (soundsToJson l) ++ []) = some (soundsToJson l, []) := by
      cases l with
      | nil => exact parseVal_sounds_nil _ []
      | cons e es =>
        apply parseVal_sounds
        have h1 := stringifyElems_entries_length es e
        rw [soundsToJson, stringify_jarr]
        simp only [List.length_append, List.length_cons]
        simp only [List.map_cons] at h1
        simp [List.length_cons]
        omega
    rwa [List.append_nil] at h0
  unfold jsonParse
  rw [hmain]
  simp [skipWs]

/-! ## Decoding through base64toBlob -/

theorem base64toBlob_of_atob (s : List Char) (bs : List Nat) (h : atob s = some bs) :
    base64toBlob s = some bs := by
  unfold base64toBlob
  rw [h]
  simp only [Option.map_some']
  exact congrArg some (chunks_flatten bs)

/-! ## Catalog storage lemmas -/

theorem getItem_setItem_self (st : List (List Char × List Char)) (k v : List Char) :
    getItem (setItem st k v) k = some v := by
  induction st with
  | nil => simp [setItem, getItem]
  | cons p t ih =>
    obtain ⟨k0, v0⟩ := p
    by_cases h : k = k0 <;> simp [setItem, getItem, h, ih]

theorem getItem_setItem_other (st : List (List Char × List Char)) (k v k' : List Char)
    (h : ¬ k' = k) :
    getItem (setItem st k v) k' = getItem st k' := by
  induction st with
  | nil => simp [setItem, getItem, h]
  | cons p t ih =>
    obtain ⟨k0, v0⟩ := p
    by_cases h2 : k = k0
    · subst h2
      simp [setItem, getItem, h]
    · by_cases h3 : k' = k0 <;> simp [setItem, getItem, h2, h3, ih]

/-! ## The claims -/

/-- Claim C1: for every byte sequence `b` (entries are byte values, `< 256`),
including the empty sequence, decoding the text encoding of `b` yields
exactly `b`: `base64toBlob (encode b) = some b`, where `encode` is the
base64 data-URL encoding with everything up to and including `"base64,"`
stripped, and the decoder is `base64toBlob`. -/
theorem claim_decode_encode (bs : List Nat) (h : ∀ b ∈ bs, b < 256) :
    base64toBlob (encode bs) = some bs := by
  rw [encode_eq_btoa]
  exact base64toBlob_of_atob _ _ (atob_btoa bs h)

theorem claim_decode_encode_witness :
    (∀ b ∈ [0, 77, 255], b < 256) ∧
      base64toBlob (encode [0, 77, 255]) = some [0, 77, 255] :=
  ⟨by decide, claim_decode_encode [0, 77, 255] (by decide)⟩

/-- Claim C2 counterexample: the store value `"oops"` is present but not
parseable, yet `load` does not return an empty sequence — the `JSON.parse`
exception propagates (modelled by `none`), because `initUI` has no
`try`/`catch` around `JSON.parse`. -/
theorem claim_load_corrupt_cex :
    jsonParse ("oops".toList) = none ∧
      load true (some ("oops".toList)) = none ∧
      load true (some ("oops".toList)) ≠ some (.jarr []) :=
  ⟨rfl, rfl, fun h =>
    Option.noConfusion ((rfl : load true (some ("oops".toList)) = none).symm.trans h)⟩

/-- Claim C2 amended: when the stored value under the storage key is
present but not parseable as JSON, `load` raises the parse error to the
caller (modelled by `none`) instead of returning an empty sequence; the
empty sequence is returned only when the key is absent or the value
parses to a falsy value. -/
theorem claim_load_corrupt_amended (s : List Char) (h : jsonParse s = none) :
    load true (some s) = none := by
  unfold load
  simp [h]

theorem claim_load_corrupt_amended_witness :
    jsonParse ("oops".toList) = none ∧ load true (some ("oops".toList)) = none :=
  ⟨rfl, claim_load_corrupt_amended ("oops".toList) rfl⟩

/-- Claim C3: appending `e1` then `e2` (with working storage) leaves the
in-memory catalog as the prior entries followed by `e1` then `e2`, and a
`load` from the same store parses back exactly that sequence (as its JSON
image `soundsToJson`); in particular from an empty catalog it yields
`[e1, e2]`. -/
theorem claim_append_append_load (st : CatalogState) (e1 e2 : SoundEntry) :
    (appendSound true true e2 ((appendSound true true e1 st).1)).1.sounds =
        st.sounds ++ [e1, e2] ∧
      load true (getItem ((appendSound true true e2
          ((appendSound true true e1 st).1)).1.storage) ("sounds".toList)) =
        some (soundsToJson (st.sounds ++ [e1, e2])) := by
  have hassoc : (st.sounds ++ [e1]) ++ [e2] = st.sounds ++ [e1, e2] := by
    simp [List.append_assoc]
  constructor
  · simp [appendSound, hassoc]
  · simp only [appendSound, if_true]
    rw [getItem_setItem_self]
    unfold load
    simp only [Option.getD_some, if_pos rfl]
    rw [hassoc, jsonParse_stringify_sounds]
    rfl

/-- Claim C4: `append` updates the in-memory `sounds` list (the entry
goes to the end) regardless of whether storage is available and of
whether the storage write throws — the push precedes the `setItem`
call, so the in-memory catalog always contains the new entry. -/
theorem claim_append_in_memory (hasLS writeOk : Bool) (e : SoundEntry) (st : CatalogState) :
    (appendSound hasLS writeOk e st).1.sounds = st.sounds ++ [e] ∧
      e ∈ (appendSound hasLS writeOk e st).1.sounds := by
  have h1 : (appendSound hasLS writeOk e st).1.sounds = st.sounds ++ [e] := by
    cases hasLS <;> cases writeOk <;> simp [appendSound]
  exact ⟨h1, by rw [h1]; simp⟩

/-- Claim C5: with an empty or absent store value, and likewise when
storage is unavailable entirely, `load` returns the empty sequence. -/
theorem claim_load_empty :
    (∀ stored, load false stored = some (.jarr [])) ∧
      load true none = some (.jarr []) :=
  ⟨fun _ => rfl, rfl⟩

/-- Claim C6: after a successful append, the store holds — under the
single key `"sounds"` — the serialization of the entire updated
in-memory sequence (a full rewrite), and every other storage key is
untouched. -/
theorem claim_append_store (e : SoundEntry) (st : CatalogState) :
    getItem ((appendSound true true e st).1.storage) ("sounds".toList) =
        some (stringify (soundsToJson (st.sounds ++ [e]))) ∧
      ∀ k, k ≠ "sounds".toList →
        getItem ((appendSound true true e st).1.storage) k = getItem st.storage k := by
  constructor
  · simp only [appendSound, if_true]
    exact getItem_setItem_self _ _ _
  · intro k hk
    simp only [appendSound, if_true]
    exact getItem_setItem_other _ _ _ _ hk

theorem claim_append_store_witness :
    ("other".toList ≠ "sounds".toList) ∧
      getItem ((appendSound true true ⟨[], []⟩ ⟨[], []⟩).1.storage) ("other".toList) =
        getItem (CatalogState.mk [] []).storage ("other".toList) :=
  ⟨by decide, (claim_append_store ⟨[], []⟩ ⟨[], []⟩).2 ("other".toList) (by decide)⟩

/-- Claim C7: when the capture source is unavailable
(`navigator.mediaDevices` falsy), a click on the record button is a
no-op: the whole observable state — recording flag, media recorder,
pending request, button text and background, catalog and storage — is
unchanged, and no error is raised. -/
theorem claim_click_no_media (s : UIState) : step s (.click false) = s := by
  simp [step, clickRecord]

/-- Claim C8 counterexample: the state after one click (stream
acquisition still pending, so `mediaRecorder` is still undefined) is
reachable and Recording, and a further click leaves it Recording — it
does not transition back to Idle, contradicting the claimed two-state
behaviour. -/
theorem claim_recording_machine_cex :
    ReachableUI (step initState (.click true)) ∧
      (step initState (.click true)).recording = true ∧
      (step (step initState (.click true)) (.click true)).recording = true :=
  ⟨⟨[Ev.click true], rfl⟩, rfl, rfl⟩

/-- Claim C8 amended: clicks drive Idle to Recording (media available),
and drive Recording back to Idle provided a media recorder object
exists; when the recorder has not been created (stream acquisition
pending or failed), a click in Recording is a no-op and the session
stays Recording. -/
theorem claim_recording_machine_amended (s : UIState) :
    (s.recording = false → (step s (.click true)).recording = true) ∧
      (s.recording = true → s.mediaRecorder.isSome →
        (step s (.click true)).recording = false) ∧
      (s.recording = true → s.mediaRecorder = none → step s (.click true) = s) := by
  refine ⟨fun h1 => ?_, fun h1 h2 => ?_, fun h1 h2 => ?_⟩
  · simp [step, clickRecord, h1]
  · obtain ⟨u, hu⟩ := Option.isSome_iff_exists.mp h2
    simp [step, clickRecord, h1, hu]
  · simp [step, clickRecord, h1, h2]

theorem claim_recording_machine_amended_witness :
    initState.recording = false ∧ (step initState (.click true)).recording = true :=
  ⟨rfl, (claim_recording_machine_amended initState).1 rfl⟩

/-- Claim C9: the name stored in a `SoundEntry` is always a string; a
cancelled prompt (`null`, modelled as `none`) stores the empty string —
`prompt(...) || ""` coincides with defaulting `null` to `""` because the
only falsy string is the empty one. -/
theorem claim_prompt_name (r : Option (List Char)) (d : List Char) :
    (mkSoundEntry r d).name = r.getD [] ∧ (mkSoundEntry none d).name = [] := by
  refine ⟨?_, rfl⟩
  cases r with
  | none => rfl
  | some s =>
    cases s with
    | nil => rfl
    | cons c cs => simp [mkSoundEntry, promptName]

/-- Claim C10: for every input string that `atob` accepts, the chunked
decode of `base64toBlob` (slices of 1024 bytes, concatenated) yields
exactly the `atob` byte sequence — the plain unsliced decode — without
dropping, duplicating or reordering bytes, and with output length equal
to the `atob` output length. -/
theorem claim_chunked_decode (s : List Char) (bs : List Nat) (h : atob s = some bs) :
    base64toBlob s = some bs ∧
      ∀ out, base64toBlob s = some out → out.length = bs.length := by
  have h1 := base64toBlob_of_atob s bs h
  refine ⟨h1, fun out hout => ?_⟩
  rw [h1] at hout
  have h2 : bs = out := by injection hout
  rw [← h2]

theorem claim_chunked_decode_witness :
    atob ("QUJD".toList) = some [65, 66, 67] ∧
      base64toBlob ("QUJD".toList) = some [65, 66, 67] :=
  ⟨by decide, (claim_chunked_decode ("QUJD".toList) [65, 66, 67] (by decide)).1⟩
